import Mathlib

/-!
Verification of the confluence-sync reconciliation engine.

This file is a shallow embedding of the core of the repository:
`src/confluence_sync/sync.py` (MetadataStore, SyncManager) and
`src/confluence_sync/confluence_client.py` (ConfluenceClient, PageInfo).

Python strings are modeled as `List Char` (`Str`); Python `dict`s and the
local filesystem are modeled as association lists with replace-or-append
assignment (`assocSet`), which mirrors `d[k] = v`.  Python functions that can
raise are modeled with `Option`/`Except`, where `none`/`error` marks the
raised exception.  Remote (Confluence HTTP) calls are recorded in an explicit
trace (`RemoteCall`) so that frame properties about remote access are
statable.  The markdown/HTML text transforms of the gateway are treated as
the opaque text-transform collaborator of the specification and do not enter
any claim; the remote page body is modeled as the pushed text itself.
-/

/-! ## Python string primitives -/

/-- Python `str`, modeled as a list of characters. -/
abbrev Str := List Char

/-- The whitespace characters stripped by Python `str.strip()`
(ASCII fragment: space, tab, newline, carriage return, vertical tab,
form feed). -/
def isPySpace (c : Char) : Bool :=
  c = ' ' || c = '\t' || c = '\n' || c = '\r' || c = '\x0b' || c = '\x0c'

/-- Python `str.strip()`: drop leading and trailing whitespace. -/
def stripChars (s : Str) : Str :=
  ((s.dropWhile isPySpace).reverse.dropWhile isPySpace).reverse

/-- Core of `str.split(sep)`: returns the first group and remaining groups. -/
def splitOnCharCore (sep : Char) : Str → Str × List Str
  | [] => ([], [])
  | c :: rest =>
    let r := splitOnCharCore sep rest
    if c = sep then ([], r.1 :: r.2) else (c :: r.1, r.2)

/-- Python `str.split(sep)` for a one-character separator: `"".split` gives
`[""]`, and `n` separators give `n+1` groups. -/
def splitOnChar (sep : Char) (s : Str) : List Str :=
  (splitOnCharCore sep s).1 :: (splitOnCharCore sep s).2

/-- Python `sep.join(groups)` for a one-character separator. -/
def joinWith (sep : Char) : List Str → Str
  | [] => []
  | [x] => x
  | x :: y :: xs => x ++ sep :: joinWith sep (y :: xs)

/-- `content.split('\n')`, as used by `_parse_file_content`. -/
def splitLines (s : Str) : List Str := splitOnChar '\n' s

/-- The numeric value of an ASCII digit character. -/
def digitVal (c : Char) : Option Nat :=
  if c.isDigit then some (c.toNat - 48) else none

/-- Digits of Python `int(...)` after the first: a digit, optionally preceded
by a single underscore separator (Python allows `1_0`), accumulated into
`acc`. -/
def pyDigitsRest : Str → Nat → Option Nat
  | [], acc => some acc
  | c :: rest, acc =>
    if c = '_' then
      match rest with
      | [] => none
      | d :: rest2 =>
        match digitVal d with
        | some k => pyDigitsRest rest2 (acc * 10 + k)
        | none => none
    else
      match digitVal c with
      | some k => pyDigitsRest rest (acc * 10 + k)
      | none => none

/-- The digit part of Python `int(...)`: a nonempty digit sequence with
optional single underscore separators. -/
def pyDigits : Str → Option Nat
  | [] => none
  | c :: rest =>
    match digitVal c with
    | some k => pyDigitsRest rest k
    | none => none

/-- Python `int(s)` on a string (ASCII decimal fragment): strip whitespace,
an optional sign, then digits; `none` models the raised `ValueError`. -/
def pyParseInt (s : Str) : Option Int :=
  match stripChars s with
  | [] => none
  | c :: rest =>
    if c = '-' then (pyDigits rest).map (fun n => -(n : Int))
    else if c = '+' then (pyDigits rest).map (fun n => (n : Int))
    else (pyDigits (c :: rest)).map (fun n => (n : Int))

/-- Decimal digits of a natural number, with explicit fuel so that the
definition is structurally recursive; `natDigits` supplies enough fuel. -/
def natDigitsAux : Nat → Nat → Str
  | 0, _ => []
  | fuel + 1, n =>
    if n < 10 then [Nat.digitChar n]
    else natDigitsAux fuel (n / 10) ++ [Nat.digitChar (n % 10)]

/-- Decimal rendering of a natural number, as Python `str(n)` produces. -/
def natDigits (n : Nat) : Str := natDigitsAux (n + 1) n

/-- Decimal rendering of a Python integer, as an f-string interpolation
`f"{v}"` produces. -/
def intRepr (v : Int) : Str :=
  if v < 0 then '-' :: natDigits (-v).toNat else natDigits v.toNat

/-- Lookup in an association list modeling a Python `dict`. -/
def assocLookup {α : Type} : List (Str × α) → Str → Option α
  | [], _ => none
  | (k', v) :: rest, k => if k' = k then some v else assocLookup rest k

/-- Python `d[k] = v`: replace the binding of `k` in place, or append. -/
def assocSet {α : Type} : List (Str × α) → Str → α → List (Str × α)
  | [], k, v => [(k, v)]
  | (k', v') :: rest, k, v =>
    if k' = k then (k', v) :: rest else (k', v') :: assocSet rest k v

/-- The last component of a path (`Path.name`). -/
def pathName (p : Str) : Str := (splitOnChar '/' p).getLastD p

/-- The index of the last dot of a character list, if any. -/
def rfindDot (l : Str) : Option Nat :=
  match List.findIdx? (fun c => c = '.') l.reverse with
  | some j => some (l.length - 1 - j)
  | none => none

/-- `Path.stem`: the final path component without its suffix (the suffix is
dropped only when the last dot is neither first nor last in the name). -/
def pathStem (p : Str) : Str :=
  let n := pathName p
  match rfindDot n with
  | some i => if 0 < i && i + 1 < n.length then n.take i else n
  | none => n

/-! ## Data model (`PageInfo`, `MetadataStore`, states) -/

/-- `PageInfo` from `confluence_client.py`: the structured record of one
document (the DocumentRecord of the specification). -/
structure PageInfo where
  id : Str
  title : Str
  version : Int
  content : Str
  parent_id : Option Str := none
  space_key : Str := []
deriving DecidableEq

/-- One entry of the persisted metadata store (the IdentityStoreEntry of the
specification): what `MetadataStore.set_page_metadata` records. -/
structure StoreEntry where
  title : Str
  version : Int
  file_path : Str
deriving DecidableEq

/-- The local world of `SyncManager`: the filesystem (path to file content),
the in-memory metadata mapping of `MetadataStore`, and the persisted copy of
the metadata file written by `MetadataStore.save`. -/
structure SyncState where
  files : List (Str × Str)
  store : List (Str × StoreEntry)
  persisted : List (Str × StoreEntry)
deriving DecidableEq

/-- One remote Confluence page. -/
structure RemotePage where
  title : Str
  version : Int
  body : Str
  parentId : Option Str
  space : Str
deriving DecidableEq

/-- The remote Confluence store: pages keyed by page id, together with the
set of page ids whose fetch raises a transport error (modeling network
failures of the gateway). -/
structure RemoteState where
  pages : List (Str × RemotePage)
  failing : List Str
deriving DecidableEq

/-- `SyncConfig`: the space key, the local root directory, and the ignore
predicate induced by `ignore_patterns` via `Path.match`. -/
structure SyncConfig where
  spaceKey : Str
  localPath : Str
  ignore : Str → Bool

/-- A remote API call, recorded as an event so that claims about which remote
operations an engine operation performs are statable. -/
inductive RemoteCall where
  | listPages (space : Str)
  | fetchPage (pageId : Str)
  | getVersion (pageId : Str)
  | updatePage (pageId : Str) (title : Str) (body : Str)
  | createPage (space : Str) (title : Str)
deriving DecidableEq

/-- Errors raised inside `_push_file`.  `versionConflict` is the
`ValueError("Version conflict: ...")` raised by `update_page_content`;
`valueError` is any other `ValueError` (notably `int()` on a malformed
version header); `fatal` is any non-`ValueError` exception, which
`SyncManager.push` does not catch. -/
inductive PushErr where
  | versionConflict (expected actual : Int)
  | valueError
  | fatal (msg : Str)
deriving DecidableEq

deriving instance DecidableEq for Except

/-! ## Document Codec (`_create_file_content`, `_parse_file_content`) -/

/-- The `---` header delimiter line. -/
def hdrDelim : Str := "---".data

/-- Header key `confluence_id`. -/
def keyId : Str := "confluence_id".data

/-- Header key `confluence_title`. -/
def keyTitle : Str := "confluence_title".data

/-- Header key `confluence_version`. -/
def keyVersion : Str := "confluence_version".data

/-- Header key `confluence_parent_id`. -/
def keyParent : Str := "confluence_parent_id".data

/-- Header key `confluence_space_key`. -/
def keySpace : Str := "confluence_space_key".data

/-- One `key: value` header line. -/
def kvLine (k v : Str) : Str := k ++ ':' :: ' ' :: v

/-- `SyncManager._create_file_content`: the metadata header (five
`key: value` lines between `---` delimiters, an absent parent rendered as an
empty value), a blank line, then the body. -/
def create_file_content (pi : PageInfo) : Str :=
  hdrDelim ++ '\n' ::
    (kvLine keyId pi.id ++ '\n' ::
      (kvLine keyTitle pi.title ++ '\n' ::
        (kvLine keyVersion (intRepr pi.version) ++ '\n' ::
          (kvLine keyParent (pi.parent_id.getD []) ++ '\n' ::
            (kvLine keySpace pi.space_key ++ '\n' ::
              (hdrDelim ++ '\n' :: '\n' :: pi.content))))))

/-- The search for the closing delimiter in `_parse_file_content`:
`for i, line in enumerate(lines[1:], 1): if line == '---'` — the index is
relative to `lines`, starting at 1. -/
def findDelimIdx : List Str → Nat → Option Nat
  | [], _ => none
  | l :: rest, i => if l = hdrDelim then some i else findDelimIdx rest (i + 1)

/-- The header-block split of `_parse_file_content`: if the first line is
`---` and a closing `---` follows, the metadata lines strictly between the
delimiters and the content lines after the closing delimiter. -/
def headerBlock (content : Str) : Option (List Str × List Str) :=
  match splitLines content with
  | [] => none
  | l0 :: rest =>
    if l0 = hdrDelim then
      match findDelimIdx rest 1 with
      | some me =>
        if 0 < me then some (rest.take (me - 1), rest.drop me) else none
      | none => none
    else none

/-- `line.split(':', 1)` guarded by `':' in line`: the text before the first
colon and the text after it. -/
def splitColon (l : Str) : Option (Str × Str) :=
  match splitOnChar ':' l with
  | [] => none
  | [_] => none
  | x :: xs => some (x, joinWith ':' xs)

/-- The metadata dictionary built by `_parse_file_content`: each line with a
colon contributes `metadata[key.strip()] = value.strip()`; colon-free lines
are dropped. -/
def parseMeta (lines : List Str) : List (Str × Str) :=
  lines.foldl
    (fun m l =>
      match splitColon l with
      | some (k, v) => assocSet m (stripChars k) (stripChars v)
      | none => m)
    []

/-- `int(metadata.get('confluence_version', 1))`: the default `1` is already
an integer, a present value goes through `int()` and may raise. -/
def metaVersion (m : List (Str × Str)) : Option Int :=
  match assocLookup m keyVersion with
  | none => some 1
  | some s => pyParseInt s

/-- `SyncManager._parse_file_content`.  `none` models the `ValueError`
raised by `int()` on a malformed `confluence_version` value; every other
input yields a record, falling back to an untracked new document (empty id,
stem title, version 1, whole text as body) when no complete header block is
present. -/
def parse_file_content (defaultSpace : Str) (content : Str) (filePath : Str) :
    Option PageInfo :=
  match headerBlock content with
  | some (metaLines, contentLines) =>
    let m := parseMeta metaLines
    match metaVersion m with
    | none => none
    | some v =>
      some
        { id := (assocLookup m keyId).getD []
          title := (assocLookup m keyTitle).getD (pathStem filePath)
          version := v
          content := stripChars (joinWith '\n' contentLines)
          parent_id :=
            match assocLookup m keyParent with
            | some s => if s = [] then none else some s
            | none => none
          space_key := (assocLookup m keySpace).getD defaultSpace }
  | none =>
    some
      { id := []
        title := pathStem filePath
        version := 1
        content := content
        parent_id := none
        space_key := defaultSpace }

/-- `SyncManager._sanitize_filename`: replace path and drive separators with
underscores, keep alphanumerics and `-_. `, strip surrounding whitespace. -/
def sanitize_filename (ti : Str) : Str :=
  let s1 := ti.map (fun c => if c = '/' || c = '\\' || c = ':' then '_' else c)
  let s2 := s1.filter (fun c => c.isAlphanum || c = '-' || c = '_' || c = '.' || c = ' ')
  stripChars s2

/-! ## Remote Gateway (`ConfluenceClient`) -/

/-- Transport failure message. -/
def transportMsg : Str := "TransportFailure".data

/-- Not-found failure message. -/
def notFoundMsg : Str := "NotFound".data

/-- `ConfluenceClient.get_page_content`: fetch one page with its version.
The HTML-to-markdown conversion is the opaque text-transform collaborator;
the body is modeled as the stored text.  `error` models a raised exception
(transport failure or missing page). -/
def get_page_content (r : RemoteState) (pageId : Str) : Except Str PageInfo :=
  if r.failing.contains pageId then Except.error transportMsg
  else
    match assocLookup r.pages pageId with
    | none => Except.error notFoundMsg
    | some pg =>
      Except.ok
        { id := pageId, title := pg.title, version := pg.version,
          content := pg.body, parent_id := pg.parentId, space_key := pg.space }

/-- `ConfluenceClient.get_space_pages`: the ids of the pages of a space, in
listing order. -/
def get_space_pages (r : RemoteState) (space : Str) : List Str :=
  (r.pages.filter (fun kv => kv.2.space = space)).map (fun kv => kv.1)

/-- `ConfluenceClient.update_page_content`: first re-read the current remote
version; if it differs from `currentVersion` raise the version-conflict
`ValueError` without writing; otherwise perform the write (the remote
version advances by one, per the Confluence API contract).  The second
component is the trace of remote calls performed. -/
def update_page_content (r : RemoteState) (pageId ti body : Str)
    (currentVersion : Int) (parentId : Option Str) :
    Except PushErr RemoteState × List RemoteCall :=
  match assocLookup r.pages pageId with
  | none => (Except.error (PushErr.fatal notFoundMsg), [RemoteCall.getVersion pageId])
  | some pg =>
    if pg.version ≠ currentVersion then
      (Except.error (PushErr.versionConflict currentVersion pg.version),
       [RemoteCall.getVersion pageId])
    else
      (Except.ok
        { r with
          pages := assocSet r.pages pageId
            { pg with title := ti, body := body, version := pg.version + 1,
                      parentId := parentId } },
       [RemoteCall.getVersion pageId, RemoteCall.updatePage pageId ti body])

/-- The longest key length among remote pages, used to produce a fresh id. -/
def maxKeyLen (ps : List (Str × RemotePage)) : Nat :=
  ps.foldr (fun kv acc => max kv.1.length acc) 0

/-- A remote-assigned identity that is fresh for the current remote state
(identities are never reused, per the Confluence contract). -/
def freshId (r : RemoteState) : Str := List.replicate (maxKeyLen r.pages + 1) 'n'

/-- `ConfluenceClient.create_page`: the remote store creates the page under a
fresh identity at version 1 and returns that identity and version. -/
def create_page (r : RemoteState) (space ti body : Str) (parentId : Option Str) :
    RemoteState × (Str × Int) × List RemoteCall :=
  let i := freshId r
  ({ r with
     pages := assocSet r.pages i
       { title := ti, version := 1, body := body, parentId := parentId,
         space := space } },
   (i, 1), [RemoteCall.createPage space ti])

/-! ## Identity Store (`MetadataStore`) -/

/-- `MetadataStore.load`: no file means the mapping stays empty (a first run
is not an error); an existing file goes through `json.load`, whose failure —
`jsonLoad` models the external json library — propagates, since `load` has
no exception handler. -/
def metadataStore_load (file : Option Str)
    (jsonLoad : Str → Except Str (List (Str × StoreEntry))) :
    Except Str (List (Str × StoreEntry)) :=
  match file with
  | none => Except.ok []
  | some content => jsonLoad content

/-- `SyncManager.__init__`: construct the state by loading the metadata
store; a load failure propagates and no operation can run. -/
def syncManager_init (files : List (Str × Str)) (storeFile : Option Str)
    (jsonLoad : Str → Except Str (List (Str × StoreEntry))) :
    Except Str SyncState :=
  (metadataStore_load storeFile jsonLoad).map (fun m => ⟨files, m, m⟩)

/-! ## Reconciliation Engine (`SyncManager`) -/

/-- The local path a pulled page is written to:
`local_path / f"{sanitized title}.md"`. -/
def pagePath (cfg : SyncConfig) (pi : PageInfo) : Str :=
  cfg.localPath ++ '/' :: (sanitize_filename pi.title ++ ".md".data)

/-- `SyncManager._save_page_locally`: write the encoded page to its derived
path and upsert the metadata entry `{title, version, file_path}` under the
page id. -/
def save_page_locally (cfg : SyncConfig) (pi : PageInfo) (st : SyncState) :
    SyncState :=
  { st with
    files := assocSet st.files (pagePath cfg pi) (create_file_content pi)
    store := assocSet st.store pi.id ⟨pi.title, pi.version, pagePath cfg pi⟩ }

/-- The per-page loop of `SyncManager.pull`: fetch each page and save it
locally.  A fetch failure propagates — the loop body has no exception
handler — aborting the remaining batch. -/
def pullLoop (cfg : SyncConfig) (r : RemoteState) :
    List Str → SyncState → List RemoteCall →
    Except Str SyncState × List RemoteCall
  | [], st, tr => (Except.ok st, tr)
  | i :: rest, st, tr =>
    match get_page_content r i with
    | Except.error e => (Except.error e, tr ++ [RemoteCall.fetchPage i])
    | Except.ok pi =>
      pullLoop cfg r rest (save_page_locally cfg pi st)
        (tr ++ [RemoteCall.fetchPage i])

/-- `SyncManager.pull`: list the pages of the configured space, fetch and
save each, then persist the metadata store once at the end. -/
def pull (cfg : SyncConfig) (st : SyncState) (r : RemoteState) :
    Except Str SyncState × List RemoteCall :=
  match pullLoop cfg r (get_space_pages r cfg.spaceKey) st
      [RemoteCall.listPages cfg.spaceKey] with
  | (Except.ok st', tr) => (Except.ok { st' with persisted := st'.store }, tr)
  | (Except.error e, tr) => (Except.error e, tr)

/-- `SyncManager._push_file`: read and decode the file (a missing file just
returns `False`); a non-empty decoded identity goes through the
version-checked update and the store entry advances to `decoded version + 1`;
an empty identity creates a new remote page and records the identity and
version returned by the gateway. -/
def push_file (cfg : SyncConfig) (st : SyncState) (r : RemoteState) (p : Str) :
    Except PushErr (Bool × SyncState × RemoteState) × List RemoteCall :=
  match assocLookup st.files p with
  | none => (Except.ok (false, st, r), [])
  | some content =>
    match parse_file_content cfg.spaceKey content p with
    | none => (Except.error PushErr.valueError, [])
    | some pi =>
      if pi.id = [] then
        match create_page r cfg.spaceKey pi.title pi.content pi.parent_id with
        | (r', (newId, newVer), tr) =>
          (Except.ok (true,
            { st with store := assocSet st.store newId ⟨pi.title, newVer, p⟩ },
            r'), tr)
      else
        match update_page_content r pi.id pi.title pi.content pi.version pi.parent_id with
        | (Except.error e, tr) => (Except.error e, tr)
        | (Except.ok r', tr) =>
          (Except.ok (true,
            { st with store := assocSet st.store pi.id ⟨pi.title, pi.version + 1, p⟩ },
            r'), tr)

/-- The outcome report of `SyncManager.push`: pushed files, version
conflicts (with expected and actual versions), files whose push raised some
other `ValueError` (reported on the console), and files skipped because they
were missing (reported on the console by `_push_file`). -/
structure PushResult where
  successes : List Str
  conflicts : List (Str × Int × Int)
  otherErrors : List Str
  missing : List Str
deriving DecidableEq

/-- The per-file loop of `SyncManager.push`: `except ValueError` keeps the
batch going, recording a conflict or reporting the error; any other
exception propagates and aborts the batch. -/
def pushLoop (cfg : SyncConfig) :
    List Str → SyncState → RemoteState → PushResult → List RemoteCall →
    Except Str (PushResult × SyncState × RemoteState) × List RemoteCall
  | [], st, r, acc, tr => (Except.ok (acc, st, r), tr)
  | p :: rest, st, r, acc, tr =>
    match push_file cfg st r p with
    | (Except.ok (true, st', r'), tr') =>
      pushLoop cfg rest st' r'
        { acc with successes := acc.successes ++ [p] } (tr ++ tr')
    | (Except.ok (false, st', r'), tr') =>
      pushLoop cfg rest st' r'
        { acc with missing := acc.missing ++ [p] } (tr ++ tr')
    | (Except.error (PushErr.versionConflict e a), tr') =>
      pushLoop cfg rest st r
        { acc with conflicts := acc.conflicts ++ [(p, e, a)] } (tr ++ tr')
    | (Except.error PushErr.valueError, tr') =>
      pushLoop cfg rest st r
        { acc with otherErrors := acc.otherErrors ++ [p] } (tr ++ tr')
    | (Except.error (PushErr.fatal m), tr') => (Except.error m, tr ++ tr')

/-- `SyncManager._get_all_tracked_files`: the recorded paths of all metadata
entries whose file still exists. -/
def get_all_tracked_files (st : SyncState) : List Str :=
  (st.store.filter
      (fun kv => (assocLookup st.files kv.2.file_path).isSome)).map
    (fun kv => kv.2.file_path)

/-- `SyncManager.push`: the candidate set is the explicit path list, or all
tracked files still on disk; after the loop the metadata store is persisted
once (skipped when a non-`ValueError` exception aborted the batch). -/
def push (cfg : SyncConfig) (st : SyncState) (r : RemoteState)
    (paths : Option (List Str)) :
    Except Str (PushResult × SyncState × RemoteState) × List RemoteCall :=
  let ps := match paths with
    | some ps => ps
    | none => get_all_tracked_files st
  match pushLoop cfg ps st r ⟨[], [], [], []⟩ [] with
  | (Except.ok (acc, st', r'), tr) =>
    (Except.ok (acc, { st' with persisted := st'.store }, r'), tr)
  | (Except.error e, tr) => (Except.error e, tr)

/-! ## Status (`SyncManager.status`) -/

/-- `SyncManager._get_all_local_files`: the markdown files under the local
root (`rglob` of `*.md` then `*.markdown`), with ignored files filtered
out. -/
def localFiles (cfg : SyncConfig) (st : SyncState) : List Str :=
  let under := fun (p : Str) => (cfg.localPath ++ ['/']).isPrefixOf p
  let mds := (st.files.map (fun kv => kv.1)).filter
    (fun p => under p && List.isSuffixOf (".md".data) p)
  let markdowns := (st.files.map (fun kv => kv.1)).filter
    (fun p => under p && List.isSuffixOf (".markdown".data) p)
  (mds ++ markdowns).filter (fun p => !cfg.ignore p)

/-- `SyncManager._get_page_id_from_file`: decode the file and return its
identity when non-empty; any exception (unreadable file, `int()` failure)
yields `None`. -/
def get_page_id_from_file (cfg : SyncConfig) (st : SyncState) (p : Str) :
    Option Str :=
  match assocLookup st.files p with
  | none => none
  | some content =>
    match parse_file_content cfg.spaceKey content p with
    | none => none
    | some pi => if pi.id = [] then none else some pi.id

/-- `SyncManager._is_file_modified`: decode the file and compare `(title,
version)` with the stored entry; any exception counts as modified. -/
def is_file_modified (cfg : SyncConfig) (st : SyncState) (p : Str)
    (meta : StoreEntry) : Bool :=
  match assocLookup st.files p with
  | none => true
  | some content =>
    match parse_file_content cfg.spaceKey content p with
    | none => true
    | some pi => pi.title ≠ meta.title || pi.version ≠ meta.version

/-- The tracked store entry a local file refers to, if any: the decoded
non-empty identity looked up in the metadata mapping.  `none` covers the
`else` branch of the status loop (no identity, undecodable file, or an
untracked identity). -/
def fileTracked (cfg : SyncConfig) (st : SyncState) (p : Str) :
    Option StoreEntry :=
  match get_page_id_from_file cfg st p with
  | some i => assocLookup st.store i
  | none => none

/-- The report printed by `SyncManager.status`. -/
structure StatusReport where
  newFiles : List Str
  modifiedFiles : List Str
  deletedFiles : List Str
deriving DecidableEq

/-- `SyncManager.status`: one pass over the local files sorts each into new
(untracked) or modified (tracked with changed metadata); one pass over the
metadata lists entries whose recorded path no longer exists. -/
def status (cfg : SyncConfig) (st : SyncState) : StatusReport :=
  let locals := localFiles cfg st
  { newFiles := locals.filter (fun p => (fileTracked cfg st p).isNone)
    modifiedFiles := locals.filter
      (fun p =>
        match fileTracked cfg st p with
        | some m => is_file_modified cfg st p m
        | none => false)
    deletedFiles :=
      (st.store.filter
          (fun kv => (assocLookup st.files kv.2.file_path).isNone)).map
        (fun kv => kv.2.file_path) }

/-- `SyncManager.status` as a state- and trace-passing operation: the source
performs no store mutation, no file write and no remote call, so the
translation returns the state unchanged with an empty remote trace. -/
def statusOp (cfg : SyncConfig) (st : SyncState) :
    StatusReport × SyncState × List RemoteCall :=
  (status cfg st, st, [])

/-! ## Concrete states used in witnesses and counterexamples -/

/-- Space key `S`. -/
def strS : Str := "S".data

/-- Local root `docs`. -/
def strDocs : Str := "docs".data

/-- A configuration with space `S`, root `docs`, and nothing ignored. -/
def cfgEx : SyncConfig :=
  { spaceKey := strS, localPath := strDocs, ignore := fun _ => false }

/-- Page id `7`. -/
def str7 : Str := "7".data

/-- Page id `9`. -/
def str9 : Str := "9".data

/-- Title `T`. -/
def strT : Str := "T".data

/-- Title `C`. -/
def strCC : Str := "C".data

/-- Body `hello`. -/
def strHello : Str := "hello".data

/-- Body ` x` (leading space). -/
def strSpaceX : Str := " x".data

/-- File name `f.md`. -/
def strF : Str := "f.md".data

/-- Path `docs/a.md`. -/
def pathA : Str := "docs/a.md".data

/-- Path `docs/b.md`. -/
def pathB : Str := "docs/b.md".data

/-- Path `docs/c.md`. -/
def pathC : Str := "docs/c.md".data

/-- Path `docs/T.md`. -/
def pathT : Str := "docs/T.md".data

/-- A well-formed record: id 7, title T, version 2, body `hello`. -/
def exPI2 : PageInfo :=
  { id := str7, title := strT, version := 2, content := strHello,
    parent_id := none, space_key := strS }

/-- The record `exPI2` with the body ` x`, whose leading space the decoder
strips. -/
def exBadBody : PageInfo := { exPI2 with content := strSpaceX }

/-- A remote page for id 7 at version 3. -/
def rpB3 : RemotePage :=
  { title := strT, version := 3, body := strHello, parentId := none,
    space := strS }

/-- A remote page for id 7 at version 2. -/
def rpB2 : RemotePage := { rpB3 with version := 2 }

/-- Remote state: page 7 at version 3 (ahead of the local file). -/
def rConflict : RemoteState := { pages := [(str7, rpB3)], failing := [] }

/-- Remote state: page 7 at version 2 (matching the local file). -/
def rMatch : RemoteState := { pages := [(str7, rpB2)], failing := [] }

/-- Local state: the file `docs/b.md` encodes `exPI2`; the store tracks
id 7 at version 2. -/
def stTracked : SyncState :=
  { files := [(pathB, create_file_content exPI2)],
    store := [(str7, ⟨strT, 2, pathB⟩)], persisted := [] }

/-- `stTracked` with a stale store entry recording version 10 for id 7. -/
def stStale : SyncState :=
  { stTracked with store := [(str7, ⟨strT, 10, pathB⟩)] }

/-- The empty local state. -/
def st0 : SyncState := { files := [], store := [], persisted := [] }

/-- The stored-version projection of a `_push_file` outcome, for stating
counterexamples about the store after a push. -/
def pushedVersionAt
    (res : Except PushErr (Bool × SyncState × RemoteState) × List RemoteCall)
    (i : Str) : Option Int :=
  match res.1 with
  | Except.ok (_, st', _) => (assocLookup st'.store i).map (fun e => e.version)
  | Except.error _ => none

/-- A header whose `confluence_version` value is not an integer. -/
def exBadVer : Str := "---\nconfluence_version: abc\n---\nx".data

/-- A header block with no remaining fields, directly followed by a body. -/
def exEmptyHdr : Str := "---\n---\nbody".data

/-- Body text `body`. -/
def strBody : Str := "body".data

/-- An opening delimiter with header-looking lines but no closing
delimiter. -/
def exOpenHdr : Str := "---\nconfluence_id: 9\nbody".data

/-- Page id `a`. -/
def strA : Str := "a".data

/-- Page id `b`. -/
def strB : Str := "b".data

/-- Page id `c`. -/
def strCid : Str := "c".data

/-- Remote state with three pages in space `S` where fetching page `b`
raises a transport error. -/
def rBatch : RemoteState :=
  { pages := [(strA, rpB2), (strB, rpB2), (strCid, rpB2)], failing := [strB] }

/-- Local state for the status scenario: one untracked file `docs/a.md`, one
tracked file `docs/b.md` whose stored version is stale, and one tracked
entry `docs/c.md` whose file is gone. -/
def stStatus : SyncState :=
  { files := [(pathA, strHello), (pathB, create_file_content exPI2)],
    store := [(str7, ⟨strT, 3, pathB⟩), (str9, ⟨strCC, 1, pathC⟩)],
    persisted := [] }

/-- A json parse failure message. -/
def corruptMsg : Str := "JSONDecodeError".data

/-- A corrupt store file content. -/
def corruptStore : Str := "\x7bbad".data

/-- A json loader that fails on every input, modeling `json.load` raising
`JSONDecodeError` on a corrupt store file. -/
def jsonFail : Str → Except Str (List (Str × StoreEntry)) :=
  fun _ => Except.error corruptMsg

/-- Remote state with the single page 7 at version 2 (for the pull
idempotence witness). -/
def rOne : RemoteState := { pages := [(str7, rpB2)], failing := [] }

/-- The state produced by pulling `rOne` into the empty state. -/
def stPulled : SyncState :=
  { files := [(pathT, create_file_content exPI2)],
    store := [(str7, ⟨strT, 2, pathT⟩)],
    persisted := [(str7, ⟨strT, 2, pathT⟩)] }

/-- The header line `confluence_id: 9` of `exOpenHdr`. -/
def exOpenLine2 : Str := "confluence_id: 9".data

/-- The lines after the opening delimiter of `exOpenHdr`. -/
def exOpenRest : List Str := [exOpenLine2, strBody]

/-- The local state after a successful push of `docs/b.md` from
`stTracked` against `rMatch`. -/
def stAfterPush : SyncState :=
  { stTracked with store := [(str7, ⟨strT, 3, pathB⟩)] }

/-! ## Lemmas: association lists -/

theorem assocLookup_set {α : Type} (m : List (Str × α)) (k k' : Str) (v : α) :
    assocLookup (assocSet m k v) k' =
      if k = k' then some v else assocLookup m k' := by
  induction m with
  | nil =>
    by_cases h : k = k' <;> simp [assocSet, assocLookup, h]
  | cons kv rest ih =>
    obtain ⟨k1, v1⟩ := kv
    by_cases h1 : k1 = k
    · subst h1
      by_cases h2 : k1 = k' <;> simp [assocSet, assocLookup, h2]
    · by_cases h2 : k1 = k'
      · subst h2
        have hk : ¬ k = k1 := fun h => h1 h.symm
        simp [assocSet, assocLookup, h1, hk]
      · simp [assocSet, assocLookup, h1, h2, ih]

theorem assocLookup_mem {α : Type} (m : List (Str × α)) (k : Str) (v : α)
    (h : assocLookup m k = some v) : (k, v) ∈ m := by
  induction m with
  | nil => simp [assocLookup] at h
  | cons kv rest ih =>
    obtain ⟨k1, v1⟩ := kv
    by_cases h1 : k1 = k
    · subst h1
      simp [assocLookup] at h
      simp [h]
    · simp [assocLookup, h1] at h
      exact List.mem_cons_of_mem _ (ih h)

/-! ## Lemmas: split and join -/

theorem splitOnCharCore_no_sep (sep : Char) (a : Str) (h : sep ∉ a) :
    splitOnCharCore sep a = (a, []) := by
  induction a with
  | nil => rfl
  | cons c rest ih =>
    have hc : ¬ c = sep := fun hcs => h (hcs ▸ List.mem_cons_self c rest)
    have hrest : sep ∉ rest := fun hm => h (List.mem_cons_of_mem _ hm)
    simp [splitOnCharCore, hc, ih hrest]

theorem splitOnCharCore_append (sep : Char) (a b : Str) (h : sep ∉ a) :
    splitOnCharCore sep (a ++ sep :: b) =
      (a, (splitOnCharCore sep b).1 :: (splitOnCharCore sep b).2) := by
  induction a with
  | nil => simp [splitOnCharCore]
  | cons c rest ih =>
    have hc : ¬ c = sep := fun hcs => h (hcs ▸ List.mem_cons_self c rest)
    have hrest : sep ∉ rest := fun hm => h (List.mem_cons_of_mem _ hm)
    simp [splitOnCharCore, hc, ih hrest]

theorem splitOnChar_no_sep (sep : Char) (a : Str) (h : sep ∉ a) :
    splitOnChar sep a = [a] := by
  simp [splitOnChar, splitOnCharCore_no_sep sep a h]

theorem splitOnChar_append (sep : Char) (a b : Str) (h : sep ∉ a) :
    splitOnChar sep (a ++ sep :: b) = a :: splitOnChar sep b := by
  simp [splitOnChar, splitOnCharCore_append sep a b h]

theorem splitOnChar_cons_sep (sep : Char) (b : Str) :
    splitOnChar sep (sep :: b) = [] :: splitOnChar sep b :=
  splitOnChar_append sep [] b (by simp)

theorem joinWith_cons (sep : Char) (x : Str) (ys : List Str) (h : ys ≠ []) :
    joinWith sep (x :: ys) = x ++ sep :: joinWith sep ys := by
  match ys with
  | [] => exact absurd rfl h
  | y :: ys' => rfl

theorem joinWith_splitOnChar (sep : Char) (l : Str) :
    joinWith sep (splitOnChar sep l) = l := by
  induction l with
  | nil => rfl
  | cons c rest ih =>
    by_cases hc : c = sep
    · subst hc
      rw [splitOnChar_cons_sep]
      rw [joinWith_cons c [] (splitOnChar c rest) (by simp [splitOnChar])]
      simpa using ih
    · show joinWith sep ((splitOnCharCore sep (c :: rest)).1 :: (splitOnCharCore sep (c :: rest)).2) = _
      simp only [splitOnCharCore, hc, if_false]
      rcases hsplit : splitOnCharCore sep rest with ⟨g, gs⟩
      match gs with
      | [] =>
        have := ih
        simp only [splitOnChar, hsplit] at this
        simp only [joinWith] at this ⊢
        simp [this]
      | g2 :: gs2 =>
        have := ih
        simp only [splitOnChar, hsplit] at this
        rw [joinWith_cons sep (c :: g) (g2 :: gs2) (by simp)]
        rw [joinWith_cons sep g (g2 :: gs2) (by simp)] at this
        simp [this]

/-! ## Lemmas: strip -/

theorem stripChars_cons_space (c : Char) (l : Str) (h : isPySpace c) :
    stripChars (c :: l) = stripChars l := by
  simp [stripChars, List.dropWhile, h]

/-! ## Lemmas: decimal digits -/

theorem natDigitsAux_digits (fuel n : Nat) :
    ∀ c ∈ natDigitsAux fuel n, c.isDigit := by
  induction fuel generalizing n with
  | zero => intro c hc; simp [natDigitsAux] at hc
  | succ fuel ih =>
    intro c hc
    by_cases h : n < 10
    · simp [natDigitsAux, h] at hc
      subst hc
      interval_cases n <;> decide
    · simp only [natDigitsAux, h, if_false, List.mem_append] at hc
      rcases hc with hc | hc
      · exact ih (n / 10) c hc
      · simp at hc
        subst hc
        have h10 : n % 10 < 10 := Nat.mod_lt n (by omega)
        set m := n % 10 with hm
        interval_cases m <;> decide

theorem natDigits_digits (n : Nat) : ∀ c ∈ natDigits n, c.isDigit :=
  natDigitsAux_digits (n + 1) n

theorem natDigitsAux_ne_nil (fuel n : Nat) (h : n < fuel) :
    natDigitsAux fuel n ≠ [] := by
  match fuel with
  | fuel' + 1 =>
    by_cases h10 : n < 10 <;> simp [natDigitsAux, h10]

theorem natDigits_ne_nil (n : Nat) : natDigits n ≠ [] :=
  natDigitsAux_ne_nil (n + 1) n (by omega)

theorem pyDigitsRest_digit_cons (c : Char) (k : Nat) (hc : digitVal c = some k)
    (hne : ¬ c = '_') (rest : Str) (acc : Nat) :
    pyDigitsRest (c :: rest) acc = pyDigitsRest rest (acc * 10 + k) := by
  rw [pyDigitsRest.eq_def]
  simp only [if_neg hne, hc]

theorem pyDigits_digit_cons (c : Char) (k : Nat) (hc : digitVal c = some k)
    (rest : Str) :
    pyDigits (c :: rest) = pyDigitsRest rest k := by
  rw [pyDigits.eq_def]
  simp only [hc]

theorem pyDigitsRest_digitChar (m : Nat) (hm : m < 10) (rest : Str) (acc : Nat) :
    pyDigitsRest (Nat.digitChar m :: rest) acc = pyDigitsRest rest (acc * 10 + m) := by
  interval_cases m <;> exact pyDigitsRest_digit_cons _ _ (by decide) (by decide) rest acc

theorem pyDigits_digitChar (m : Nat) (hm : m < 10) (rest : Str) :
    pyDigits (Nat.digitChar m :: rest) = pyDigitsRest rest m := by
  interval_cases m <;> exact pyDigits_digit_cons _ _ (by decide) rest

theorem pyDigits_natDigitsAux (fuel : Nat) :
    ∀ n rest, n < fuel →
      pyDigits (natDigitsAux fuel n ++ rest) = pyDigitsRest rest n := by
  induction fuel with
  | zero => intro n rest h; omega
  | succ fuel ih =>
    intro n rest h
    by_cases h10 : n < 10
    · simp only [natDigitsAux, h10, if_true, List.cons_append, List.nil_append]
      rw [pyDigits_digitChar n h10 rest]
    · simp only [natDigitsAux, h10, if_false, List.append_assoc, List.cons_append,
        List.nil_append]
      have hdiv : n / 10 < fuel := by
        have := Nat.div_lt_self (by omega : 0 < n) (by omega : 1 < 10)
        omega
      rw [ih (n / 10) _ hdiv]
      rw [pyDigitsRest_digitChar (n % 10) (Nat.mod_lt n (by omega)) rest (n / 10)]
      congr 1
      omega

theorem pyDigits_natDigits (n : Nat) : pyDigits (natDigits n) = some n := by
  have := pyDigits_natDigitsAux (n + 1) n [] (by omega)
  simpa [pyDigitsRest] using this

theorem stripChars_of_no_space (l : Str) (h : ∀ c ∈ l, ¬ isPySpace c) :
    stripChars l = l := by
  have h1 : l.dropWhile isPySpace = l := by
    match l with
    | [] => rfl
    | c :: rest => simp [List.dropWhile, h c (List.mem_cons_self c rest)]
  have h2 : l.reverse.dropWhile isPySpace = l.reverse := by
    match hrev : l.reverse with
    | [] => rfl
    | c :: rest =>
      have hc : c ∈ l := by
        rw [← List.mem_reverse, hrev]
        exact List.mem_cons_self c rest
      simp [List.dropWhile, h c hc]
  simp [stripChars, h1, h2]

theorem digit_not_space (c : Char) (h : c.isDigit) : ¬ isPySpace c := by
  intro hsp
  simp only [isPySpace, Bool.or_eq_true, decide_eq_true_eq] at hsp
  rcases hsp with (((((e | e) | e) | e) | e) | e) <;> subst e <;>
    exact absurd h (by decide)

theorem stripChars_natDigits (n : Nat) : stripChars (natDigits n) = natDigits n :=
  stripChars_of_no_space _ (fun c hc => digit_not_space c (natDigits_digits n c hc))

theorem pyParseInt_natDigits (n : Nat) : pyParseInt (natDigits n) = some (n : Int) := by
  rcases hnd : natDigits n with _ | ⟨c, rest⟩
  · exact absurd hnd (natDigits_ne_nil n)
  · have hdig : c.isDigit := by
      apply natDigits_digits n c
      rw [hnd]; exact List.mem_cons_self c rest
    have hminus : ¬ c = '-' := by
      intro he; subst he; simp [Char.isDigit] at hdig
    have hplus : ¬ c = '+' := by
      intro he; subst he; simp [Char.isDigit] at hdig
    have hstrip := stripChars_natDigits n
    rw [hnd] at hstrip
    simp only [pyParseInt, hstrip, hminus, hplus, if_false]
    have := pyDigits_natDigits n
    rw [hnd] at this
    simp [this]

theorem pyParseInt_intRepr (v : Int) (h : 0 ≤ v) :
    pyParseInt (intRepr v) = some v := by
  have hneg : ¬ v < 0 := by omega
  rw [intRepr, if_neg hneg, pyParseInt_natDigits]
  congr 1
  omega

/-! ## Lemmas: the encoded header -/

theorem newline_not_mem_kvLine (k v : Str) (hk : ('\n' : Char) ∉ k) (hv : ('\n' : Char) ∉ v) :
    ('\n' : Char) ∉ kvLine k v := by
  intro h
  simp only [kvLine, List.mem_append, List.mem_cons] at h
  rcases h with h | h | h | h
  · exact hk h
  · exact absurd h (by decide)
  · exact absurd h (by decide)
  · exact hv h

theorem kvLine_ne_delim (k v : Str) (hk : k.head? = some 'c') :
    ¬ kvLine k v = hdrDelim := by
  match k with
  | [] => simp at hk
  | c :: k' =>
    simp only [List.head?] at hk
    injection hk with hk
    subst hk
    intro he
    rw [show hdrDelim = ['-', '-', '-'] from rfl] at he
    simp [kvLine] at he

theorem splitColon_kvLine (k v : Str) (hk : (':' : Char) ∉ k) :
    splitColon (kvLine k v) = some (k, ' ' :: v) := by
  unfold splitColon kvLine
  rw [show k ++ ':' :: ' ' :: v = k ++ ':' :: (' ' :: v) from rfl]
  rw [splitOnChar_append ':' k (' ' :: v) hk]
  cases hs : splitOnChar ':' (' ' :: v) with
  | nil => exact absurd hs (by simp [splitOnChar])
  | cons g gs =>
    have hj : joinWith ':' (g :: gs) = ' ' :: v := by rw [← hs, joinWith_splitOnChar]
    show some (k, joinWith ':' (g :: gs)) = some (k, ' ' :: v)
    rw [hj]

theorem intRepr_no_newline (v : Int) (h : 0 ≤ v) : ('\n' : Char) ∉ intRepr v := by
  intro hm
  rw [intRepr, if_neg (by omega : ¬ v < 0)] at hm
  exact absurd (natDigits_digits _ _ hm) (by decide)

theorem splitLines_encode (pi : PageInfo)
    (hidn : ('\n' : Char) ∉ pi.id) (htin : ('\n' : Char) ∉ pi.title)
    (hspn : ('\n' : Char) ∉ pi.space_key)
    (hpan : ('\n' : Char) ∉ pi.parent_id.getD [])
    (hver : 0 ≤ pi.version) :
    splitLines (create_file_content pi) =
      hdrDelim :: kvLine keyId pi.id :: kvLine keyTitle pi.title ::
        kvLine keyVersion (intRepr pi.version) ::
          kvLine keyParent (pi.parent_id.getD []) ::
            kvLine keySpace pi.space_key :: hdrDelim :: [] ::
              splitOnChar '\n' pi.content := by
  unfold splitLines create_file_content
  rw [splitOnChar_append '\n' hdrDelim _ (by decide)]
  rw [splitOnChar_append '\n' (kvLine keyId pi.id) _
    (newline_not_mem_kvLine _ _ (by decide) hidn)]
  rw [splitOnChar_append '\n' (kvLine keyTitle pi.title) _
    (newline_not_mem_kvLine _ _ (by decide) htin)]
  rw [splitOnChar_append '\n' (kvLine keyVersion (intRepr pi.version)) _
    (newline_not_mem_kvLine _ _ (by decide) (intRepr_no_newline _ hver))]
  rw [splitOnChar_append '\n' (kvLine keyParent (pi.parent_id.getD [])) _
    (newline_not_mem_kvLine _ _ (by decide) hpan)]
  rw [splitOnChar_append '\n' (kvLine keySpace pi.space_key) _
    (newline_not_mem_kvLine _ _ (by decide) hspn)]
  rw [splitOnChar_append '\n' hdrDelim _ (by decide)]
  rw [splitOnChar_cons_sep]

theorem headerBlock_encode (pi : PageInfo)
    (hidn : ('\n' : Char) ∉ pi.id) (htin : ('\n' : Char) ∉ pi.title)
    (hspn : ('\n' : Char) ∉ pi.space_key)
    (hpan : ('\n' : Char) ∉ pi.parent_id.getD [])
    (hver : 0 ≤ pi.version) :
    headerBlock (create_file_content pi) =
      some ([kvLine keyId pi.id, kvLine keyTitle pi.title,
             kvLine keyVersion (intRepr pi.version),
             kvLine keyParent (pi.parent_id.getD []),
             kvLine keySpace pi.space_key],
            [] :: splitOnChar '\n' pi.content) := by
  have h1 := kvLine_ne_delim keyId pi.id (by decide)
  have h2 := kvLine_ne_delim keyTitle pi.title (by decide)
  have h3 := kvLine_ne_delim keyVersion (intRepr pi.version) (by decide)
  have h4 := kvLine_ne_delim keyParent (pi.parent_id.getD []) (by decide)
  have h5 := kvLine_ne_delim keySpace pi.space_key (by decide)
  unfold headerBlock
  rw [splitLines_encode pi hidn htin hspn hpan hver]
  simp [findDelimIdx, h1, h2, h3, h4, h5]

theorem parseMeta_header (idv tiv vev pav spv : Str)
    (hid : stripChars idv = idv) (hti : stripChars tiv = tiv)
    (hve : stripChars vev = vev) (hpa : stripChars pav = pav)
    (hsp : stripChars spv = spv) :
    parseMeta [kvLine keyId idv, kvLine keyTitle tiv, kvLine keyVersion vev,
               kvLine keyParent pav, kvLine keySpace spv] =
      [(keyId, idv), (keyTitle, tiv), (keyVersion, vev), (keyParent, pav),
       (keySpace, spv)] := by
  simp only [parseMeta, List.foldl,
    splitColon_kvLine keyId idv (by decide),
    splitColon_kvLine keyTitle tiv (by decide),
    splitColon_kvLine keyVersion vev (by decide),
    splitColon_kvLine keyParent pav (by decide),
    splitColon_kvLine keySpace spv (by decide),
    stripChars_cons_space ' ' _ (by decide),
    (by decide : stripChars keyId = keyId),
    (by decide : stripChars keyTitle = keyTitle),
    (by decide : stripChars keyVersion = keyVersion),
    (by decide : stripChars keyParent = keyParent),
    (by decide : stripChars keySpace = keySpace),
    hid, hti, hve, hpa, hsp]
  simp [assocSet,
    (by decide : ¬ keyId = keyTitle), (by decide : ¬ keyId = keyVersion),
    (by decide : ¬ keyId = keyParent), (by decide : ¬ keyId = keySpace),
    (by decide : ¬ keyTitle = keyVersion), (by decide : ¬ keyTitle = keyParent),
    (by decide : ¬ keyTitle = keySpace), (by decide : ¬ keyVersion = keyParent),
    (by decide : ¬ keyVersion = keySpace), (by decide : ¬ keyParent = keySpace)]


theorem hdrLookup_id (a b c d e : Str) :
    assocLookup [(keyId, a), (keyTitle, b), (keyVersion, c), (keyParent, d),
      (keySpace, e)] keyId = some a := by
  simp [assocLookup]

theorem hdrLookup_title (a b c d e : Str) :
    assocLookup [(keyId, a), (keyTitle, b), (keyVersion, c), (keyParent, d),
      (keySpace, e)] keyTitle = some b := by
  simp [assocLookup, (by decide : ¬ keyId = keyTitle)]

theorem hdrLookup_version (a b c d e : Str) :
    assocLookup [(keyId, a), (keyTitle, b), (keyVersion, c), (keyParent, d),
      (keySpace, e)] keyVersion = some c := by
  simp [assocLookup, (by decide : ¬ keyId = keyVersion),
    (by decide : ¬ keyTitle = keyVersion)]

theorem hdrLookup_parent (a b c d e : Str) :
    assocLookup [(keyId, a), (keyTitle, b), (keyVersion, c), (keyParent, d),
      (keySpace, e)] keyParent = some d := by
  simp [assocLookup, (by decide : ¬ keyId = keyParent),
    (by decide : ¬ keyTitle = keyParent), (by decide : ¬ keyVersion = keyParent)]

theorem hdrLookup_space (a b c d e : Str) :
    assocLookup [(keyId, a), (keyTitle, b), (keyVersion, c), (keyParent, d),
      (keySpace, e)] keySpace = some e := by
  simp [assocLookup, (by decide : ¬ keyId = keySpace),
    (by decide : ¬ keyTitle = keySpace), (by decide : ¬ keyVersion = keySpace),
    (by decide : ¬ keyParent = keySpace)]

theorem parse_of_headerBlock (ds fp content : Str) (ml cl : List Str)
    (h : headerBlock content = some (ml, cl)) :
    parse_file_content ds content fp =
      match metaVersion (parseMeta ml) with
      | none => none
      | some v =>
        some
          { id := (assocLookup (parseMeta ml) keyId).getD []
            title := (assocLookup (parseMeta ml) keyTitle).getD (pathStem fp)
            version := v
            content := stripChars (joinWith '\n' cl)
            parent_id :=
              match assocLookup (parseMeta ml) keyParent with
              | some s => if s = [] then none else some s
              | none => none
            space_key := (assocLookup (parseMeta ml) keySpace).getD ds } := by
  unfold parse_file_content
  rw [h]

set_option maxHeartbeats 800000

/-- Claim C1 (amended).  Encode-then-decode reproduces a DocumentRecord
exactly for every record whose id, title, space key and optional parent are
single-line strings equal to their own strip (no surrounding whitespace), whose
parent (when present) is non-empty, whose version is positive, and whose body
equals its own strip; the decoder strips the body and header values, so
records outside this hygiene class (for example a body with a leading space,
see the counterexample) are not reproduced exactly. -/
theorem claim_C1_round_trip (pi : PageInfo)
    (hids : stripChars pi.id = pi.id) (hidn : ('\n' : Char) ∉ pi.id)
    (htis : stripChars pi.title = pi.title) (htin : ('\n' : Char) ∉ pi.title)
    (hsps : stripChars pi.space_key = pi.space_key)
    (hspn : ('\n' : Char) ∉ pi.space_key)
    (hpar : ∀ q, pi.parent_id = some q →
      stripChars q = q ∧ ('\n' : Char) ∉ q ∧ q ≠ [])
    (hver : 0 < pi.version)
    (hbody : stripChars pi.content = pi.content)
    (ds fp : Str) :
    parse_file_content ds (create_file_content pi) fp = some pi := by
  have hpas : stripChars (pi.parent_id.getD []) = pi.parent_id.getD [] := by
    cases hp : pi.parent_id with
    | none => decide
    | some q => exact (hpar q hp).1
  have hpan : ('\n' : Char) ∉ pi.parent_id.getD [] := by
    cases hp : pi.parent_id with
    | none => simp
    | some q => exact (hpar q hp).2.1
  have hM := parseMeta_header pi.id pi.title (intRepr pi.version)
    (pi.parent_id.getD []) pi.space_key hids htis
    (by
      rw [intRepr, if_neg (by omega : ¬ pi.version < 0)]
      exact stripChars_natDigits _)
    hpas hsps
  have hMV : metaVersion
      [(keyId, pi.id), (keyTitle, pi.title), (keyVersion, intRepr pi.version),
       (keyParent, pi.parent_id.getD []), (keySpace, pi.space_key)] =
      some pi.version := by
    rw [metaVersion, hdrLookup_version]
    exact pyParseInt_intRepr pi.version (by omega)
  have hbodyJoin :
      stripChars (joinWith '\n' ([] :: splitOnChar '\n' pi.content)) = pi.content := by
    rw [joinWith_cons '\n' [] (splitOnChar '\n' pi.content) (by simp [splitOnChar])]
    rw [List.nil_append, stripChars_cons_space '\n' _ (by decide)]
    rw [joinWith_splitOnChar, hbody]
  rw [parse_of_headerBlock ds fp _ _ _
    (headerBlock_encode pi hidn htin hspn hpan (by omega))]
  rw [hM, hMV]
  rw [hdrLookup_id, hdrLookup_title, hdrLookup_parent, hdrLookup_space, hbodyJoin]
  obtain ⟨i, t, v, b, par, sp⟩ := pi
  simp only [Option.getD_some, Option.some.injEq, PageInfo.mk.injEq, true_and,
    and_true]
  cases hp : par with
  | none => simp
  | some q =>
    have hq := (hpar q (by simp [hp])).2.2
    simp [hp, hq]

set_option maxHeartbeats 200000

/-! ## Lemmas: repeated writes -/

/-- Apply a sequence of key-value writes to an association map, in order. -/
def applyWrites {α : Type} (m : List (Str × α)) (ws : List (Str × α)) :
    List (Str × α) :=
  ws.foldl (fun m kv => assocSet m kv.1 kv.2) m

/-- The last write to a given key in a write sequence, if any. -/
def findLast {α : Type} : List (Str × α) → Str → Option α
  | [], _ => none
  | kv :: ws, k =>
    match findLast ws k with
    | some v => some v
    | none => if kv.1 = k then some kv.2 else none

theorem applyWrites_nil {α : Type} (m : List (Str × α)) : applyWrites m [] = m := rfl

theorem applyWrites_cons {α : Type} (m : List (Str × α)) (w : Str × α)
    (ws : List (Str × α)) :
    applyWrites m (w :: ws) = applyWrites (assocSet m w.1 w.2) ws := rfl

theorem assocLookup_applyWrites {α : Type} (ws : List (Str × α)) :
    ∀ (m : List (Str × α)) (k : Str),
      assocLookup (applyWrites m ws) k =
        match findLast ws k with
        | some v => some v
        | none => assocLookup m k := by
  induction ws with
  | nil => intro m k; simp [applyWrites, findLast]
  | cons w ws ih =>
    intro m k
    rw [applyWrites_cons, ih]
    rcases h : findLast ws k with _ | v
    · simp only [findLast, h]
      rw [assocLookup_set]
      by_cases hk : w.1 = k <;> simp [hk]
    · simp [findLast, h]

theorem assocLookup_applyWrites_idem {α : Type} (ws : List (Str × α))
    (m : List (Str × α)) (k : Str) :
    assocLookup (applyWrites (applyWrites m ws) ws) k =
      assocLookup (applyWrites m ws) k := by
  rw [assocLookup_applyWrites, assocLookup_applyWrites]
  rcases h : findLast ws k with _ | v <;> simp [h]

/-! ## Lemmas: the pull loop -/

/-- Fetch every listed page in order, stopping at the first failure — the
pure fetch phase of `pull`. -/
def fetchAll (r : RemoteState) : List Str → Except Str (List PageInfo)
  | [] => Except.ok []
  | i :: rest =>
    match get_page_content r i with
    | Except.error e => Except.error e
    | Except.ok pi =>
      match fetchAll r rest with
      | Except.error e => Except.error e
      | Except.ok pis => Except.ok (pi :: pis)

/-- The file writes a list of fetched pages performs. -/
def fileWrites (cfg : SyncConfig) (pis : List PageInfo) : List (Str × Str) :=
  pis.map (fun pi => (pagePath cfg pi, create_file_content pi))

/-- The store writes a list of fetched pages performs. -/
def storeWrites (cfg : SyncConfig) (pis : List PageInfo) :
    List (Str × StoreEntry) :=
  pis.map (fun pi => (pi.id, ⟨pi.title, pi.version, pagePath cfg pi⟩))

theorem pullLoop_spec (cfg : SyncConfig) (r : RemoteState) :
    ∀ (ids : List Str) (st : SyncState) (tr : List RemoteCall),
      (pullLoop cfg r ids st tr).1 =
        match fetchAll r ids with
        | Except.error e => Except.error e
        | Except.ok pis =>
          Except.ok (pis.foldl (fun s pi => save_page_locally cfg pi s) st) := by
  intro ids
  induction ids with
  | nil => intro st tr; simp [pullLoop, fetchAll]
  | cons i rest ih =>
    intro st tr
    simp only [pullLoop, fetchAll]
    rcases hg : get_page_content r i with e | pi
    · simp
    · simp only []
      rw [ih]
      rcases hf : fetchAll r rest with e | pis <;> simp [List.foldl]

theorem foldl_save_files (cfg : SyncConfig) :
    ∀ (pis : List PageInfo) (st : SyncState),
      (pis.foldl (fun s pi => save_page_locally cfg pi s) st).files =
        applyWrites st.files (fileWrites cfg pis) := by
  intro pis
  induction pis with
  | nil => intro st; simp [fileWrites, applyWrites]
  | cons pi pis ih =>
    intro st
    simp only [List.foldl, fileWrites, List.map, applyWrites]
    rw [show (pis.map fun pi =>
        (pagePath cfg pi, create_file_content pi)).foldl
          (fun m kv => assocSet m kv.1 kv.2)
          (assocSet st.files (pagePath cfg pi) (create_file_content pi)) =
        applyWrites (save_page_locally cfg pi st).files (fileWrites cfg pis)
      from rfl]
    rw [ih]

theorem foldl_save_store (cfg : SyncConfig) :
    ∀ (pis : List PageInfo) (st : SyncState),
      (pis.foldl (fun s pi => save_page_locally cfg pi s) st).store =
        applyWrites st.store (storeWrites cfg pis) := by
  intro pis
  induction pis with
  | nil => intro st; simp [storeWrites, applyWrites]
  | cons pi pis ih =>
    intro st
    simp only [List.foldl, storeWrites, List.map, applyWrites]
    rw [show (pis.map fun pi =>
        (pi.id, (⟨pi.title, pi.version, pagePath cfg pi⟩ : StoreEntry))).foldl
          (fun m kv => assocSet m kv.1 kv.2)
          (assocSet st.store pi.id ⟨pi.title, pi.version, pagePath cfg pi⟩) =
        applyWrites (save_page_locally cfg pi st).store (storeWrites cfg pis)
      from rfl]
    rw [ih]

theorem foldl_save_persisted (cfg : SyncConfig) :
    ∀ (pis : List PageInfo) (st : SyncState),
      (pis.foldl (fun s pi => save_page_locally cfg pi s) st).persisted =
        st.persisted := by
  intro pis
  induction pis with
  | nil => intro st; rfl
  | cons pi pis ih =>
    intro st
    rw [List.foldl, ih]
    rfl

/-! ## Lemmas: fetch and push -/

theorem get_page_content_ok (r : RemoteState) (i : Str) (pi : PageInfo)
    (h : get_page_content r i = Except.ok pi) :
    pi.id = i ∧ ∃ pg, assocLookup r.pages i = some pg ∧ pi.version = pg.version := by
  unfold get_page_content at h
  by_cases hf : r.failing.contains i
  · rw [if_pos hf] at h
    simp at h
  · rw [if_neg hf] at h
    rcases hl : assocLookup r.pages i with _ | pg
    · rw [hl] at h; simp at h
    · rw [hl] at h
      injection h with h
      subst h
      exact ⟨rfl, pg, rfl, rfl⟩

theorem fetchAll_ok_mem (r : RemoteState) :
    ∀ (ids : List Str) (pis : List PageInfo), fetchAll r ids = Except.ok pis →
      ∀ pi ∈ pis, ∃ pg, assocLookup r.pages pi.id = some pg ∧
        pi.version = pg.version := by
  intro ids
  induction ids with
  | nil =>
    intro pis h pi hpi
    simp only [fetchAll] at h
    injection h with h
    subst h
    simp at hpi
  | cons i rest ih =>
    intro pis h pi hpi
    simp only [fetchAll] at h
    rcases hg : get_page_content r i with e | pj
    · rw [hg] at h; simp at h
    · rw [hg] at h
      rcases hf : fetchAll r rest with e | pjs
      · rw [hf] at h; simp at h
      · rw [hf] at h
        injection h with h
        subst h
        rcases List.mem_cons.mp hpi with hpi | hpi
        · subst hpi
          obtain ⟨hid, pg, hl, hv⟩ := get_page_content_ok r i pi hg
          exact ⟨pg, by rw [hid]; exact hl, hv⟩
        · exact ih pjs hf pi hpi

theorem findLast_mem {α : Type} :
    ∀ (ws : List (Str × α)) (k : Str) (v : α),
      findLast ws k = some v → (k, v) ∈ ws := by
  intro ws
  induction ws with
  | nil => intro k v h; simp [findLast] at h
  | cons w ws ih =>
    intro k v h
    simp only [findLast] at h
    rcases hf : findLast ws k with _ | v'
    · rw [hf] at h
      by_cases hk : w.1 = k
      · rw [if_pos hk] at h
        injection h with h
        subst h
        obtain ⟨wk, wv⟩ := w
        simp only at hk
        subst hk
        exact List.mem_cons_self _ _
      · rw [if_neg hk] at h; exact absurd h (by simp)
    · rw [hf] at h
      injection h with h
      subst h
      exact List.mem_cons_of_mem _ (ih k _ hf)

theorem pull_ok_of_fetchAll (cfg : SyncConfig) (st : SyncState) (r : RemoteState)
    (pis : List PageInfo)
    (hf : fetchAll r (get_space_pages r cfg.spaceKey) = Except.ok pis) :
    (pull cfg st r).1 =
      Except.ok
        (let st2 := pis.foldl (fun s pi => save_page_locally cfg pi s) st
         { st2 with persisted := st2.store }) := by
  unfold pull
  rcases hpl : pullLoop cfg r (get_space_pages r cfg.spaceKey) st
      [RemoteCall.listPages cfg.spaceKey] with ⟨res, tr⟩
  have hspec := pullLoop_spec cfg r (get_space_pages r cfg.spaceKey) st
    [RemoteCall.listPages cfg.spaceKey]
  rw [hpl, hf] at hspec
  simp only at hspec
  subst hspec
  simp

theorem pull_ok_spec (cfg : SyncConfig) (st : SyncState) (r : RemoteState)
    (st' : SyncState) (h : (pull cfg st r).1 = Except.ok st') :
    ∃ pis, fetchAll r (get_space_pages r cfg.spaceKey) = Except.ok pis ∧
      st'.files = applyWrites st.files (fileWrites cfg pis) ∧
      st'.store = applyWrites st.store (storeWrites cfg pis) ∧
      st'.persisted = st'.store := by
  rcases hf : fetchAll r (get_space_pages r cfg.spaceKey) with e | pis
  · exfalso
    unfold pull at h
    rcases hpl : pullLoop cfg r (get_space_pages r cfg.spaceKey) st
        [RemoteCall.listPages cfg.spaceKey] with ⟨res, tr⟩
    have hspec := pullLoop_spec cfg r (get_space_pages r cfg.spaceKey) st
      [RemoteCall.listPages cfg.spaceKey]
    rw [hpl, hf] at hspec
    simp only at hspec
    subst hspec
    rw [hpl] at h
    simp at h
  · have := pull_ok_of_fetchAll cfg st r pis hf
    rw [this] at h
    injection h with h
    subst h
    exact ⟨pis, rfl, foldl_save_files cfg pis st, foldl_save_store cfg pis st, rfl⟩

theorem push_file_update (cfg : SyncConfig) (st : SyncState) (r : RemoteState)
    (p content : Str) (pi : PageInfo) (pg : RemotePage)
    (hf : assocLookup st.files p = some content)
    (hp : parse_file_content cfg.spaceKey content p = some pi)
    (hid : ¬ pi.id = [])
    (hr : assocLookup r.pages pi.id = some pg) :
    push_file cfg st r p =
      if pg.version = pi.version then
        (Except.ok (true,
          { st with store := assocSet st.store pi.id ⟨pi.title, pi.version + 1, p⟩ },
          { r with
            pages := assocSet r.pages pi.id
              { pg with title := pi.title, body := pi.content,
                        version := pg.version + 1, parentId := pi.parent_id } }),
         [RemoteCall.getVersion pi.id, RemoteCall.updatePage pi.id pi.title pi.content])
      else
        (Except.error (PushErr.versionConflict pi.version pg.version),
         [RemoteCall.getVersion pi.id]) := by
  simp only [push_file, update_page_content, hf, hp, hid, if_false, hr]
  by_cases hv : pg.version = pi.version
  · rw [if_pos hv, if_neg (by omega : ¬ pg.version ≠ pi.version)]
  · rw [if_neg hv, if_pos (by omega : pg.version ≠ pi.version)]

theorem pushLoop_ok_spec (cfg : SyncConfig) :
    ∀ (paths : List Str) (st : SyncState) (r : RemoteState) (acc : PushResult)
      (tr tr2 : List RemoteCall) (res : PushResult) (st' : SyncState)
      (r' : RemoteState),
      pushLoop cfg paths st r acc tr = (Except.ok (res, st', r'), tr2) →
      ∃ s c o m,
        res.successes = acc.successes ++ s ∧
        res.conflicts = acc.conflicts ++ c ∧
        res.otherErrors = acc.otherErrors ++ o ∧
        res.missing = acc.missing ++ m ∧
        s.length + c.length + o.length + m.length = paths.length ∧
        ∀ p ∈ paths, p ∈ s ∨ p ∈ c.map (fun x => x.1) ∨ p ∈ o ∨ p ∈ m := by
  intro paths
  induction paths with
  | nil =>
    intro st r acc tr tr2 res st' r' h
    simp only [pushLoop] at h
    obtain ⟨h1, h2⟩ := Prod.mk.injEq .. ▸ h
    injection h1 with h1
    obtain ⟨ha, _, _⟩ := Prod.mk.injEq .. ▸ h1
    subst ha
    exact ⟨[], [], [], [], by simp, by simp, by simp, by simp, by simp, by simp⟩
  | cons p rest ih =>
    intro st r acc tr tr2 res st' r' h
    simp only [pushLoop] at h
    rcases hpf : push_file cfg st r p with ⟨res1, tr'⟩
    rw [hpf] at h
    match res1 with
    | Except.ok (true, st2, r2) =>
      simp only at h
      obtain ⟨s, c, o, m, hs, hc, ho, hm, hl, hmem⟩ := ih _ _ _ _ _ _ _ _ h
      refine ⟨p :: s, c, o, m, ?_, ?_, ?_, ?_, ?_, ?_⟩
      · simpa using hs
      · simpa using hc
      · simpa using ho
      · simpa using hm
      · simp at hl ⊢; omega
      · intro q hq
        rcases List.mem_cons.mp hq with hq | hq
        · subst hq; exact Or.inl (List.mem_cons_self _ _)
        · rcases hmem q hq with h1 | h1 | h1 | h1
          · exact Or.inl (List.mem_cons_of_mem _ h1)
          · exact Or.inr (Or.inl h1)
          · exact Or.inr (Or.inr (Or.inl h1))
          · exact Or.inr (Or.inr (Or.inr h1))
    | Except.ok (false, st2, r2) =>
      simp only at h
      obtain ⟨s, c, o, m, hs, hc, ho, hm, hl, hmem⟩ := ih _ _ _ _ _ _ _ _ h
      refine ⟨s, c, o, p :: m, ?_, ?_, ?_, ?_, ?_, ?_⟩
      · simpa using hs
      · simpa using hc
      · simpa using ho
      · simpa using hm
      · simp at hl ⊢; omega
      · intro q hq
        rcases List.mem_cons.mp hq with hq | hq
        · subst hq; exact Or.inr (Or.inr (Or.inr (List.mem_cons_self _ _)))
        · rcases hmem q hq with h1 | h1 | h1 | h1
          · exact Or.inl h1
          · exact Or.inr (Or.inl h1)
          · exact Or.inr (Or.inr (Or.inl h1))
          · exact Or.inr (Or.inr (Or.inr (List.mem_cons_of_mem _ h1)))
    | Except.error (PushErr.versionConflict e a) =>
      simp only at h
      obtain ⟨s, c, o, m, hs, hc, ho, hm, hl, hmem⟩ := ih _ _ _ _ _ _ _ _ h
      refine ⟨s, (p, e, a) :: c, o, m, ?_, ?_, ?_, ?_, ?_, ?_⟩
      · simpa using hs
      · simpa using hc
      · simpa using ho
      · simpa using hm
      · simp at hl ⊢; omega
      · intro q hq
        rcases List.mem_cons.mp hq with hq | hq
        · subst hq
          exact Or.inr (Or.inl (by simp))
        · rcases hmem q hq with h1 | h1 | h1 | h1
          · exact Or.inl h1
          · exact Or.inr (Or.inl (by simp; right; simpa using h1))
          · exact Or.inr (Or.inr (Or.inl h1))
          · exact Or.inr (Or.inr (Or.inr h1))
    | Except.error PushErr.valueError =>
      simp only at h
      obtain ⟨s, c, o, m, hs, hc, ho, hm, hl, hmem⟩ := ih _ _ _ _ _ _ _ _ h
      refine ⟨s, c, p :: o, m, ?_, ?_, ?_, ?_, ?_, ?_⟩
      · simpa using hs
      · simpa using hc
      · simpa using ho
      · simpa using hm
      · simp at hl ⊢; omega
      · intro q hq
        rcases List.mem_cons.mp hq with hq | hq
        · subst hq; exact Or.inr (Or.inr (Or.inl (List.mem_cons_self _ _)))
        · rcases hmem q hq with h1 | h1 | h1 | h1
          · exact Or.inl h1
          · exact Or.inr (Or.inl h1)
          · exact Or.inr (Or.inr (Or.inl (List.mem_cons_of_mem _ h1)))
          · exact Or.inr (Or.inr (Or.inr h1))
    | Except.error (PushErr.fatal msg) =>
      simp only at h
      exact absurd h (by simp)

/-! ## Claim results -/

/-- Claim C1, witness: the round-trip theorem applied to a concrete clean
record (id 7, title T, version 2, body `hello`). -/
theorem claim_C1_round_trip_witness :
    stripChars exPI2.content = exPI2.content ∧
      parse_file_content strS (create_file_content exPI2) strF = some exPI2 :=
  ⟨by decide,
   claim_C1_round_trip exPI2 (by decide) (by decide) (by decide) (by decide)
     (by decide) (by decide) (fun q hq => by simp [exPI2] at hq) (by decide)
     (by decide) strS strF⟩

/-- Claim C1, counterexample to the claim as stated: the record with body
` x` (a valid record: non-empty id, positive version, optional parent) is
not reproduced by decode-after-encode, because the decoder strips the
body. -/
theorem claim_C1_counterexample :
    parse_file_content strS (create_file_content exBadBody) strF ≠
      some exBadBody := by decide

/-- Claim C2.  If the decoded identity of a pushed file is non-empty and the
remote version differs from the decoded version, `_push_file` raises the
version-conflict error after the version read, performing no update call
(the trace is exactly one `getVersion`), and the batch push over that file
reports the conflict and returns the local files, store mapping and remote
state unchanged (only the unchanged store is re-persisted). -/
theorem claim_C2_conflict_detection (cfg : SyncConfig) (st : SyncState)
    (r : RemoteState) (p content : Str) (pi : PageInfo) (pg : RemotePage)
    (hf : assocLookup st.files p = some content)
    (hp : parse_file_content cfg.spaceKey content p = some pi)
    (hid : ¬ pi.id = [])
    (hr : assocLookup r.pages pi.id = some pg)
    (hv : pg.version ≠ pi.version) :
    push_file cfg st r p =
      (Except.error (PushErr.versionConflict pi.version pg.version),
       [RemoteCall.getVersion pi.id]) ∧
    push cfg st r (some [p]) =
      (Except.ok
        ({ successes := [], conflicts := [(p, pi.version, pg.version)],
           otherErrors := [], missing := [] },
         { st with persisted := st.store }, r),
       [RemoteCall.getVersion pi.id]) := by
  have h1 : push_file cfg st r p =
      (Except.error (PushErr.versionConflict pi.version pg.version),
       [RemoteCall.getVersion pi.id]) := by
    rw [push_file_update cfg st r p content pi pg hf hp hid hr, if_neg hv]
  refine ⟨h1, ?_⟩
  simp only [push, pushLoop, h1]
  simp

/-- Claim C2, witness: the conflict theorem applied to the concrete tracked
state (file at version 2, remote at version 3). -/
theorem claim_C2_conflict_detection_witness :
    push_file cfgEx stTracked rConflict pathB =
      (Except.error (PushErr.versionConflict 2 3), [RemoteCall.getVersion str7]) ∧
    push cfgEx stTracked rConflict (some [pathB]) =
      (Except.ok
        ({ successes := [], conflicts := [(pathB, 2, 3)],
           otherErrors := [], missing := [] },
         { stTracked with persisted := stTracked.store }, rConflict),
       [RemoteCall.getVersion str7]) :=
  claim_C2_conflict_detection cfgEx stTracked rConflict pathB
    (create_file_content exPI2) exPI2 rpB3 (by decide) (by decide) (by decide)
    (by decide) (by decide)

/-- Claim C3 (amended).  After a successful `_push_file` of a file whose
decoded identity is non-empty, the stored version equals the pre-push remote
version plus exactly one (part one); such a push never lowers any stored
version provided the pre-push stored version for that identity does not
exceed the remote version (part two); and a successful pull never lowers a
stored version provided every tracked identity at or below its remote
version (part three).  Without these provisos the stored version can
decrease (see the counterexample, where a stale store entry at version 10 is
overwritten with 3). -/
theorem claim_C3_version_monotonic :
    (∀ (cfg : SyncConfig) (st : SyncState) (r : RemoteState) (p content : Str)
       (pi : PageInfo) (pg : RemotePage) (b : Bool) (st' : SyncState)
       (r' : RemoteState) (tr : List RemoteCall),
       assocLookup st.files p = some content →
       parse_file_content cfg.spaceKey content p = some pi →
       ¬ pi.id = [] →
       assocLookup r.pages pi.id = some pg →
       push_file cfg st r p = (Except.ok (b, st', r'), tr) →
       pg.version = pi.version ∧
         assocLookup st'.store pi.id = some ⟨pi.title, pg.version + 1, p⟩) ∧
    (∀ (cfg : SyncConfig) (st : SyncState) (r : RemoteState) (p content : Str)
       (pi : PageInfo) (pg : RemotePage) (b : Bool) (st' : SyncState)
       (r' : RemoteState) (tr : List RemoteCall),
       assocLookup st.files p = some content →
       parse_file_content cfg.spaceKey content p = some pi →
       ¬ pi.id = [] →
       assocLookup r.pages pi.id = some pg →
       push_file cfg st r p = (Except.ok (b, st', r'), tr) →
       (∀ e, assocLookup st.store pi.id = some e → e.version ≤ pg.version) →
       ∀ i e e', assocLookup st.store i = some e →
         assocLookup st'.store i = some e' → e.version ≤ e'.version) ∧
    (∀ (cfg : SyncConfig) (st : SyncState) (r : RemoteState) (st' : SyncState),
       (∀ i e pg, assocLookup st.store i = some e →
         assocLookup r.pages i = some pg → e.version ≤ pg.version) →
       (pull cfg st r).1 = Except.ok st' →
       ∀ i e e', assocLookup st.store i = some e →
         assocLookup st'.store i = some e' → e.version ≤ e'.version) := by
  have key : ∀ (cfg : SyncConfig) (st : SyncState) (r : RemoteState)
      (p content : Str) (pi : PageInfo) (pg : RemotePage) (b : Bool)
      (st' : SyncState) (r' : RemoteState) (tr : List RemoteCall),
      assocLookup st.files p = some content →
      parse_file_content cfg.spaceKey content p = some pi →
      ¬ pi.id = [] →
      assocLookup r.pages pi.id = some pg →
      push_file cfg st r p = (Except.ok (b, st', r'), tr) →
      pg.version = pi.version ∧
        st'.store = assocSet st.store pi.id ⟨pi.title, pi.version + 1, p⟩ := by
    intro cfg st r p content pi pg b st' r' tr hf hp hid hr h
    rw [push_file_update cfg st r p content pi pg hf hp hid hr] at h
    by_cases hv : pg.version = pi.version
    · rw [if_pos hv] at h
      simp only [Prod.mk.injEq, Except.ok.injEq] at h
      obtain ⟨⟨_, h3, _⟩, _⟩ := h
      constructor
      · exact hv
      · rw [← h3]
    · rw [if_neg hv] at h
      exact absurd (congrArg Prod.fst h) (by simp)
  refine ⟨?_, ?_, ?_⟩
  · intro cfg st r p content pi pg b st' r' tr hf hp hid hr h
    obtain ⟨hv, hst⟩ := key cfg st r p content pi pg b st' r' tr hf hp hid hr h
    refine ⟨hv, ?_⟩
    rw [hst, assocLookup_set, if_pos rfl, hv]
  · intro cfg st r p content pi pg b st' r' tr hf hp hid hr h hle i e e' he he'
    obtain ⟨hv, hst⟩ := key cfg st r p content pi pg b st' r' tr hf hp hid hr h
    rw [hst, assocLookup_set] at he'
    by_cases hk : pi.id = i
    · rw [if_pos hk] at he'
      injection he' with he'
      subst he'
      have := hle e (by rw [hk]; exact he)
      simp only [StoreEntry.mk.injEq]
      omega
    · rw [if_neg hk] at he'
      rw [he] at he'
      injection he' with he'
      subst he'
      exact le_refl _
  · intro cfg st r st' H h i e e' he he'
    obtain ⟨pis, hfetch, _, hsto, _⟩ := pull_ok_spec cfg st r st' h
    rw [hsto, assocLookup_applyWrites] at he'
    rcases hfl : findLast (storeWrites cfg pis) i with _ | v
    · rw [hfl] at he'
      rw [he] at he'
      injection he' with he'
      subst he'
      exact le_refl _
    · rw [hfl] at he'
      injection he' with he'
      subst he'
      have hmem := findLast_mem _ _ _ hfl
      simp only [storeWrites, List.mem_map] at hmem
      obtain ⟨pj, hpj, hkv⟩ := hmem
      obtain ⟨hkj, hvj⟩ := Prod.mk.injEq .. ▸ hkv
      obtain ⟨pg, hpg, hver⟩ := fetchAll_ok_mem r _ pis hfetch pj hpj
      rw [hkj] at hpg
      have := H i e pg he hpg
      rw [← hvj]
      simp only
      omega

/-- Claim C3, counterexample to the unconditional never-decreases clause: a
store entry recording version 10 for id 7 while the remote (and the local
file header) are at version 2 is overwritten by a successful push with
version 3, a decrease. -/
theorem claim_C3_counterexample :
    assocLookup stStale.store str7 = some ⟨strT, 10, pathB⟩ ∧
      pushedVersionAt (push_file cfgEx stStale rMatch pathB) str7 = some 3 ∧
      (3 : Int) < 10 := by decide

/-- Claim C3, witness: part one applied to a successful concrete push — the
stored version becomes the pre-push remote version (2) plus one. -/
theorem claim_C3_version_monotonic_witness :
    rpB2.version = exPI2.version ∧
      assocLookup stAfterPush.store str7 = some ⟨strT, rpB2.version + 1, pathB⟩ :=
  claim_C3_version_monotonic.1 cfgEx stTracked rMatch pathB
    (create_file_content exPI2) exPI2 rpB2 true stAfterPush
    { rMatch with pages := [(str7, rpB3)] }
    [RemoteCall.getVersion str7, RemoteCall.updatePage str7 strT strHello]
    (by decide) (by decide) (by decide) (by decide) (by decide)

/-- Claim C4 (amended).  Decode raises only when a complete header block is
present whose `confluence_version` value fails integer parsing (part one,
an exact characterization of the `ValueError` from `int()`); when a header
block is present but no field assignment survives, every field takes its
documented default — empty identity, stem title, version 1, absent parent,
caller-supplied space (part two); and colon-free (malformed) header lines
anywhere in the header are dropped without effect (part three).  The claim
as stated — decode never raises — fails on a non-integer version value (see
the counterexample). -/
theorem claim_C4_decode_defaults :
    (∀ (ds content fp : Str),
       parse_file_content ds content fp = none ↔
         ∃ ml cl, headerBlock content = some (ml, cl) ∧
           metaVersion (parseMeta ml) = none) ∧
    (∀ (ds fp content : Str) (ml cl : List Str),
       headerBlock content = some (ml, cl) → parseMeta ml = [] →
       parse_file_content ds content fp =
         some { id := [], title := pathStem fp, version := 1,
                content := stripChars (joinWith '\n' cl), parent_id := none,
                space_key := ds }) ∧
    (∀ (xs ys : List Str) (l : Str), splitColon l = none →
       parseMeta (xs ++ l :: ys) = parseMeta (xs ++ ys)) := by
  refine ⟨?_, ?_, ?_⟩
  · intro ds content fp
    unfold parse_file_content
    rcases hb : headerBlock content with _ | ⟨ml, cl⟩
    · simp
    · rcases hm : metaVersion (parseMeta ml) with _ | v
      · simp only [hm]
        constructor
        · intro _
          exact ⟨ml, cl, rfl, hm⟩
        · intro _
          trivial
      · simp only [hm]
        constructor
        · intro hc
          exact absurd hc (by simp)
        · rintro ⟨ml', cl', hb', hm'⟩
          injection hb' with hb'
          obtain ⟨h1, _⟩ := Prod.mk.injEq .. ▸ hb'
          rw [← h1] at hm'
          rw [hm] at hm'
          exact absurd hm' (by simp)
  · intro ds fp content ml cl hb hm
    rw [parse_of_headerBlock ds fp content ml cl hb, hm]
    simp [metaVersion, assocLookup]
  · intro xs ys l hl
    unfold parseMeta
    rw [List.foldl_append, List.foldl_append]
    simp only [List.foldl_cons, hl]

/-- Claim C4, counterexample to the claim as stated: a header whose
`confluence_version` value is `abc` makes decode raise the `ValueError` of
`int()` (modeled as `none`), so decode does not terminate normally on every
input. -/
theorem claim_C4_counterexample :
    parse_file_content strS exBadVer strF = none := by decide

/-- Claim C4, witness: the defaults part applied to a header block with no
fields — every field takes its default. -/
theorem claim_C4_decode_defaults_witness :
    parse_file_content strS exEmptyHdr strF =
      some { id := [], title := pathStem strF, version := 1,
             content := stripChars (joinWith '\n' [strBody]),
             parent_id := none, space_key := strS } :=
  claim_C4_decode_defaults.2.1 strS strF exEmptyHdr [] [strBody]
    (by decide) rfl

/-- Claim C5 (amended).  When the batch push returns normally, every listed
file is accounted for in exactly one outcome bucket — pushed, conflicted,
other `ValueError`, or missing (part one); a version conflict on one file is
recorded and the loop continues with the remaining files (part two); any
other `ValueError` likewise (part three); but a fetch failure during pull is
not caught: it aborts the remaining pull batch at once (part four) — the
claim as stated, that a per-document failure never aborts the batch, fails
for pull (see the counterexample). -/
theorem claim_C5_batch_resilience :
    (∀ (cfg : SyncConfig) (st : SyncState) (r : RemoteState) (paths : List Str)
       (res : PushResult) (st' : SyncState) (r' : RemoteState)
       (tr : List RemoteCall),
       push cfg st r (some paths) = (Except.ok (res, st', r'), tr) →
       res.successes.length + res.conflicts.length + res.otherErrors.length +
           res.missing.length = paths.length ∧
         ∀ p ∈ paths, p ∈ res.successes ∨ p ∈ res.conflicts.map (fun x => x.1) ∨
           p ∈ res.otherErrors ∨ p ∈ res.missing) ∧
    (∀ (cfg : SyncConfig) (p : Str) (rest : List Str) (st : SyncState)
       (r : RemoteState) (acc : PushResult) (tr tr' : List RemoteCall)
       (e a : Int),
       push_file cfg st r p = (Except.error (PushErr.versionConflict e a), tr') →
       pushLoop cfg (p :: rest) st r acc tr =
         pushLoop cfg rest st r
           { acc with conflicts := acc.conflicts ++ [(p, e, a)] } (tr ++ tr')) ∧
    (∀ (cfg : SyncConfig) (p : Str) (rest : List Str) (st : SyncState)
       (r : RemoteState) (acc : PushResult) (tr tr' : List RemoteCall),
       push_file cfg st r p = (Except.error PushErr.valueError, tr') →
       pushLoop cfg (p :: rest) st r acc tr =
         pushLoop cfg rest st r
           { acc with otherErrors := acc.otherErrors ++ [p] } (tr ++ tr')) ∧
    (∀ (cfg : SyncConfig) (r : RemoteState) (i : Str) (rest : List Str)
       (st : SyncState) (tr : List RemoteCall) (e : Str),
       get_page_content r i = Except.error e →
       pullLoop cfg r (i :: rest) st tr =
         (Except.error e, tr ++ [RemoteCall.fetchPage i])) := by
  refine ⟨?_, ?_, ?_, ?_⟩
  · intro cfg st r paths res st' r' tr h
    unfold push at h
    simp only at h
    rcases hl : pushLoop cfg paths st r ⟨[], [], [], []⟩ [] with ⟨res2, tr2⟩
    rw [hl] at h
    match res2 with
    | Except.error e =>
      simp only at h
      exact absurd (congrArg Prod.fst h) (by simp)
    | Except.ok (acc, st2, r2) =>
      simp only [Prod.mk.injEq, Except.ok.injEq] at h
      obtain ⟨⟨hacc, _, _⟩, _⟩ := h
      obtain ⟨s, c, o, m, hs, hc, ho, hm, hlen, hmem⟩ :=
        pushLoop_ok_spec cfg paths st r ⟨[], [], [], []⟩ [] tr2 acc st2 r2 hl
      subst hacc
      simp only [List.nil_append] at hs hc ho hm
      subst hs; subst hc; subst ho; subst hm
      exact ⟨hlen, hmem⟩
  · intro cfg p rest st r acc tr tr' e a h
    simp only [pushLoop, h]
  · intro cfg p rest st r acc tr tr' h
    simp only [pushLoop, h]
  · intro cfg r i rest st tr e h
    simp only [pullLoop, h]

/-- Claim C5, counterexample to the claim as stated: with three remote pages
where fetching the second raises a transport error, pull aborts — the error
propagates and the third page is never fetched (the trace stops at page
`b`). -/
theorem claim_C5_counterexample :
    (pull cfgEx st0 rBatch).1 = Except.error transportMsg ∧
      (pull cfgEx st0 rBatch).2 =
        [RemoteCall.listPages strS, RemoteCall.fetchPage strA,
         RemoteCall.fetchPage strB] := by decide

/-- Claim C5, witness: the accounting part applied to a concrete batch over
one missing file — the batch returns normally and the file is accounted in
the missing bucket. -/
theorem claim_C5_batch_resilience_witness :
    (([] : List Str).length + ([] : List (Str × Int × Int)).length +
        ([] : List Str).length + [pathB].length = [pathB].length) ∧
      ∀ p ∈ [pathB], p ∈ ([] : List Str) ∨
        p ∈ ([] : List (Str × Int × Int)).map (fun x => x.1) ∨
        p ∈ ([] : List Str) ∨ p ∈ [pathB] :=
  claim_C5_batch_resilience.1 cfgEx st0 rMatch [pathB]
    ⟨[], [], [], [pathB]⟩ st0 rMatch [] (by decide)

/-- Claim C6.  Status classifies: a local file is new exactly when its
decoded identity (when it has one) is not tracked — files with empty or
undecodable identity included; a local file is modified exactly when it
decodes to a tracked identity whose decoded title or version differs from
the stored entry; a path is reported deleted exactly when some store entry
records it and it no longer exists; and the synthetic one-untracked,
one-stale, one-missing state yields exactly one file in each bucket. -/
theorem claim_C6_status_classification :
    (∀ (cfg : SyncConfig) (st : SyncState) (p : Str),
       p ∈ (status cfg st).newFiles ↔
         p ∈ localFiles cfg st ∧
           ∀ i, get_page_id_from_file cfg st p = some i →
             assocLookup st.store i = none) ∧
    (∀ (cfg : SyncConfig) (st : SyncState) (p : Str),
       p ∈ (status cfg st).modifiedFiles ↔
         p ∈ localFiles cfg st ∧
           ∃ content pi m, assocLookup st.files p = some content ∧
             parse_file_content cfg.spaceKey content p = some pi ∧
             ¬ pi.id = [] ∧ assocLookup st.store pi.id = some m ∧
             (pi.title ≠ m.title ∨ pi.version ≠ m.version)) ∧
    (∀ (cfg : SyncConfig) (st : SyncState) (q : Str),
       q ∈ (status cfg st).deletedFiles ↔
         ∃ i e, (i, e) ∈ st.store ∧ e.file_path = q ∧
           assocLookup st.files q = none) ∧
    status cfgEx stStatus =
      { newFiles := [pathA], modifiedFiles := [pathB],
        deletedFiles := [pathC] } := by
  refine ⟨?_, ?_, ?_, by decide⟩
  · intro cfg st p
    simp only [status, List.mem_filter, Option.isNone_iff_eq_none]
    constructor
    · rintro ⟨hloc, htr⟩
      refine ⟨hloc, ?_⟩
      intro i hi
      unfold fileTracked at htr
      rw [hi] at htr
      exact htr
    · rintro ⟨hloc, htr⟩
      refine ⟨hloc, ?_⟩
      unfold fileTracked
      rcases hg : get_page_id_from_file cfg st p with _ | i
      · rfl
      · exact htr i hg
  · intro cfg st p
    simp only [status, List.mem_filter]
    constructor
    · rintro ⟨hloc, htr⟩
      refine ⟨hloc, ?_⟩
      rcases hft : fileTracked cfg st p with _ | m
      · rw [hft] at htr
        exact absurd htr (by simp)
      · rw [hft] at htr
        simp only at htr
        unfold fileTracked at hft
        rcases hg : get_page_id_from_file cfg st p with _ | i
        · rw [hg] at hft
          exact absurd hft (by simp)
        · rw [hg] at hft
          simp only at hft
          unfold get_page_id_from_file at hg
          rcases hfl : assocLookup st.files p with _ | content
          · rw [hfl] at hg
            exact absurd hg (by simp)
          · rw [hfl] at hg
            simp only at hg
            rcases hpp : parse_file_content cfg.spaceKey content p with _ | pi
            · rw [hpp] at hg
              exact absurd hg (by simp)
            · rw [hpp] at hg
              simp only at hg
              by_cases hid : pi.id = []
              · rw [if_pos hid] at hg
                exact absurd hg (by simp)
              · rw [if_neg hid] at hg
                injection hg with hg
                subst hg
                refine ⟨content, pi, m, rfl, hpp, hid, hft, ?_⟩
                unfold is_file_modified at htr
                rw [hfl] at htr
                simp only at htr
                rw [hpp] at htr
                simp only at htr
                simpa using htr
    · rintro ⟨hloc, content, pi, m, hfl, hpp, hid, hsm, hdif⟩
      refine ⟨hloc, ?_⟩
      have hg : get_page_id_from_file cfg st p = some pi.id := by
        unfold get_page_id_from_file
        rw [hfl]
        simp only
        rw [hpp]
        simp only
        rw [if_neg hid]
      have hft : fileTracked cfg st p = some m := by
        unfold fileTracked
        rw [hg]
        simp only
        exact hsm
      rw [hft]
      unfold is_file_modified
      rw [hfl]
      simp only
      rw [hpp]
      simp only
      simpa using hdif
  · intro cfg st q
    simp only [status, List.mem_map, List.mem_filter]
    constructor
    · rintro ⟨⟨i, e⟩, ⟨hmem, hnone⟩, hq⟩
      simp only at hq
      refine ⟨i, e, hmem, hq, ?_⟩
      rw [← hq]
      simpa using hnone
    · rintro ⟨i, e, hmem, hq, hnone⟩
      refine ⟨(i, e), ⟨hmem, ?_⟩, hq⟩
      simp only
      rw [hq]
      simpa using hnone

/-- Claim C6, witness: in the synthetic state, `docs/a.md` is reported new —
obtained from the classification theorem. -/
theorem claim_C6_status_classification_witness :
    pathA ∈ (status cfgEx stStatus).newFiles :=
  (claim_C6_status_classification.1 cfgEx stStatus pathA).mpr
    ⟨by decide, fun i hi => by
      rw [(by decide : get_page_id_from_file cfgEx stStatus pathA =
        (none : Option Str))] at hi
      exact absurd hi (by simp)⟩

/-- Claim C7.  Status is read-only: run as a state- and trace-passing
operation, it returns the local files, the store mapping and the persisted
store file unchanged, and performs no remote call. -/
theorem claim_C7_status_readonly (cfg : SyncConfig) (st : SyncState) :
    (statusOp cfg st).2.1.files = st.files ∧
      (statusOp cfg st).2.1.store = st.store ∧
      (statusOp cfg st).2.1.persisted = st.persisted ∧
      (statusOp cfg st).2.2 = [] :=
  ⟨rfl, rfl, rfl, rfl⟩

/-- Claim C8 (amended).  A missing store file loads as the empty mapping
(first run is not an error), but an existing store file that fails to parse
is fatal: `load` has no exception handler, the json error propagates, and
`SyncManager` construction — hence every operation — fails.  The claim as
stated (corrupt store treated as an empty store with a warning) fails: see
the counterexample. -/
theorem claim_C8_corrupt_store :
    (∀ jsonLoad, metadataStore_load none jsonLoad = Except.ok []) ∧
    (∀ (content e : Str) jsonLoad, jsonLoad content = Except.error e →
       metadataStore_load (some content) jsonLoad = Except.error e) ∧
    (∀ (files : List (Str × Str)) (content e : Str) jsonLoad,
       jsonLoad content = Except.error e →
       syncManager_init files (some content) jsonLoad = Except.error e) := by
  refine ⟨fun _ => rfl, fun content e jl h => h, ?_⟩
  intro files content e jl h
  unfold syncManager_init
  rw [show metadataStore_load (some content) jl = jl content from rfl, h]
  rfl

/-- Claim C8, counterexample to the claim as stated: a corrupt store file is
not treated as an empty store — the json error propagates out of `load`. -/
theorem claim_C8_counterexample :
    metadataStore_load (some corruptStore) jsonFail = Except.error corruptMsg ∧
      metadataStore_load (some corruptStore) jsonFail ≠ Except.ok [] := by decide

/-- Claim C8, witness: the fatal-propagation part applied to a concrete
corrupt store — manager construction fails. -/
theorem claim_C8_corrupt_store_witness :
    syncManager_init [] (some corruptStore) jsonFail = Except.error corruptMsg :=
  claim_C8_corrupt_store.2.2 [] corruptStore corruptMsg jsonFail rfl

/-- Claim C9.  Pull is idempotent: if a pull from remote state `r` completes
and yields local state `st1`, pulling again from the unchanged remote
completes and yields a state whose local files, store mapping and persisted
store agree with `st1` at every key. -/
theorem claim_C9_pull_idempotent (cfg : SyncConfig) (st : SyncState)
    (r : RemoteState) (st1 : SyncState)
    (h : (pull cfg st r).1 = Except.ok st1) :
    ∃ st2, (pull cfg st1 r).1 = Except.ok st2 ∧
      (∀ k, assocLookup st2.files k = assocLookup st1.files k) ∧
      (∀ k, assocLookup st2.store k = assocLookup st1.store k) ∧
      (∀ k, assocLookup st2.persisted k = assocLookup st1.persisted k) := by
  obtain ⟨pis, hfetch, hfil, hsto, hper⟩ := pull_ok_spec cfg st r st1 h
  have h2 := pull_ok_of_fetchAll cfg st1 r pis hfetch
  refine ⟨_, h2, ?_⟩
  obtain ⟨pis2, hfetch2, hfil2, hsto2, hper2⟩ :=
    pull_ok_spec cfg st1 r _ h2
  rw [hfetch] at hfetch2
  injection hfetch2 with hfetch2
  subst hfetch2
  refine ⟨?_, ?_, ?_⟩
  · intro k
    rw [hfil2, hfil, assocLookup_applyWrites_idem, ← hfil]
  · intro k
    rw [hsto2, hsto, assocLookup_applyWrites_idem, ← hsto]
  · intro k
    rw [hper2, hper, hsto2, hsto, assocLookup_applyWrites_idem, ← hsto]

/-- Claim C9, witness: pulling the one-page remote into the empty state and
pulling again — the second pull completes with the same files and store. -/
theorem claim_C9_pull_idempotent_witness :
    ∃ st2, (pull cfgEx stPulled rOne).1 = Except.ok st2 ∧
      (∀ k, assocLookup st2.files k = assocLookup stPulled.files k) ∧
      (∀ k, assocLookup st2.store k = assocLookup stPulled.store k) ∧
      (∀ k, assocLookup st2.persisted k = assocLookup stPulled.persisted k) :=
  claim_C9_pull_idempotent cfgEx st0 rOne stPulled (by decide)

/-- The search for a closing delimiter fails when no remaining line is the
delimiter. -/
theorem findDelimIdx_none (ls : List Str) (i : Nat) (h : hdrDelim ∉ ls) :
    findDelimIdx ls i = none := by
  induction ls generalizing i with
  | nil => rfl
  | cons l rest ih =>
    have hl : ¬ l = hdrDelim := fun he => h (he ▸ List.mem_cons_self l rest)
    simp only [findDelimIdx, hl, if_false]
    exact ih (i + 1) (fun hm => h (List.mem_cons_of_mem _ hm))

/-- Claim C10.  A text whose first line is the opening delimiter but which
has no closing delimiter line decodes as an untracked new document: empty
identity, stem title, version 1, the caller-supplied default space, and the
entire original text — the opening delimiter included — as the body; the
partial header lines are not interpreted. -/
theorem claim_C10_unterminated_header (ds fp content : Str) (rest : List Str)
    (h1 : splitLines content = hdrDelim :: rest) (h2 : hdrDelim ∉ rest) :
    parse_file_content ds content fp =
      some { id := [], title := pathStem fp, version := 1, content := content,
             parent_id := none, space_key := ds } := by
  have hb : headerBlock content = none := by
    unfold headerBlock
    rw [h1]
    simp only
    rw [findDelimIdx_none rest 1 h2]
    simp
  unfold parse_file_content
  rw [hb]

/-- Claim C10, witness: the unterminated-header theorem applied to a
concrete text with an opening delimiter, one header-looking line, and no
closing delimiter. -/
theorem claim_C10_unterminated_header_witness :
    parse_file_content strS exOpenHdr strF =
      some { id := [], title := pathStem strF, version := 1,
             content := exOpenHdr, parent_id := none, space_key := strS } :=
  claim_C10_unterminated_header strS strF exOpenHdr exOpenRest (by decide)
    (by decide)
